import Mathlib

/-!
Verification of the share-of-model-report dashboard (`src/app.py`).

The file shallowly embeds the data model and the computational pipeline of
`app.py`: keyword categorization (`load_data`, lines 28-34), the survival
aggregation over the (optionally filtered) record set (lines 57-66), the
per-category breakdown chart (lines 90-98), the boolean coercion of the
survival column (lines 20-23), the load error handling (lines 17-39 and
126-127), and the recommendation-list formatter (line 121).
-/

namespace App

/-- Substring containment on character lists: `containsSub hay pat` is true
iff `pat` occurs contiguously inside `hay`.  This models the semantics of
pandas `Series.str.contains` applied with an alternation of literal
patterns (each alternative is a literal substring test). -/
def containsSub : List Char → List Char → Bool
  | [], pat => pat.isEmpty
  | c :: rest, pat => pat.isPrefixOf (c :: rest) || containsSub rest pat

/-- `str.contains` of one literal token against a keyword string. -/
def strContains (s : String) (pat : String) : Bool :=
  containsSub s.data pat.data

/-- True iff the keyword contains at least one of the tokens, modelling the
regex alternation `tok1|tok2|...` used in `app.py` lines 29-31. -/
def containsAnyToken (kw : String) (toks : List String) : Bool :=
  toks.any (fun t => strContains kw t)

/-- The tokens of the first (Software/SaaS) rule, `app.py` line 29. -/
def softwareTokens : List String := ["crm", "software", "saas"]

/-- The tokens of the second (Consumer Goods/Food) rule, `app.py` line 30. -/
def foodTokens : List String := ["food", "air fryer", "recipe"]

/-- The tokens of the third (Apparel/Footwear) rule, `app.py` line 31. -/
def apparelTokens : List String := ["shoe", "boot", "hiking", "apparel"]

/-- The four category labels of `app.py` lines 33-34: the three `choices`
of `np.select` plus the `default='Other'` fallback. -/
inductive Category where
  | softwareSaaS
  | consumerGoodsFood
  | apparelFootwear
  | other
  deriving DecidableEq

/-- The category assignment of `app.py` lines 28-34: `np.select` evaluates
the three conditions in order and picks the first that holds, falling back
to `Other`. -/
def categorize (kw : String) : Category :=
  if containsAnyToken kw softwareTokens then Category.softwareSaaS
  else if containsAnyToken kw foodTokens then Category.consumerGoodsFood
  else if containsAnyToken kw apparelTokens then Category.apparelFootwear
  else Category.other

/-- The four categories, in the order the `np.select` rules are written. -/
def allCategories : List Category :=
  [Category.softwareSaaS, Category.consumerGoodsFood,
   Category.apparelFootwear, Category.other]

/-- One row of `share_of_model_data.csv` as used by the app: `keyword`,
`google_top_1_brand`, `llm_recs` (a nullable text cell) and the boolean
`rank_1_survived_ai`. -/
structure Record where
  keyword : String
  google_top_1_brand : String
  llm_recs : Option String
  rank_1_survived_ai : Bool

/-- `len(filtered_df)`, `app.py` line 63. -/
def total_keywords (l : List Record) : Nat := l.length

/-- `filtered_df['rank_1_survived_ai'].sum()`, `app.py` line 64. -/
def survived_count (l : List Record) : Nat :=
  (l.filter (fun r => r.rank_1_survived_ai)).length

/-- `(survived_count / total_keywords) * 100 if total_keywords > 0 else 0`,
`app.py` line 65, with the exact rational value in place of the float. -/
def survival_rate (l : List Record) : ℚ :=
  if 0 < total_keywords l then
    ((survived_count l : ℚ) / (total_keywords l : ℚ)) * 100
  else 0

/-- `total_keywords - survived_count`, `app.py` line 66. -/
def at_risk_count (l : List Record) : Nat :=
  total_keywords l - survived_count l

/-- Number of records of the set assigned the given category (the size of
one `groupby('category')` group, `app.py` line 90). -/
def categoryCount (l : List Record) (c : Category) : Nat :=
  (l.filter (fun r => decide (categorize r.keyword = c))).length

/-- Number of surviving records of the set assigned the given category. -/
def categorySurvived (l : List Record) (c : Category) : Nat :=
  (l.filter (fun r =>
    decide (categorize r.keyword = c) && r.rank_1_survived_ai)).length

/-- The sidebar selection of `app.py` lines 52-55: either `'All'` or one
category label. -/
inductive FilterChoice where
  | all
  | cat (c : Category)
  deriving DecidableEq

/-- The filtered view of `app.py` lines 57-60: the rows whose `category`
column equals the selection, or the whole set when `'All'` is selected. -/
def filtered_df (l : List Record) : FilterChoice → List Record
  | FilterChoice.all => l
  | FilterChoice.cat c => l.filter (fun r => decide (categorize r.keyword = c))

/-- The `groupby('category')` key order: pandas sorts group keys in
ascending lexicographic order of the category label, and only categories
with at least one row form a group.  Lexicographically:
`'Apparel/Footwear' < 'Consumer Goods/Food' < 'Other' < 'Software/SaaS'`. -/
def groupbyOrder : List Category :=
  [Category.apparelFootwear, Category.consumerGoodsFood,
   Category.other, Category.softwareSaaS]

/-- The categories actually present in the record set, in groupby key
order: exactly the groups produced by `data_df.groupby('category')`. -/
def presentCategories (l : List Record) : List Category :=
  groupbyOrder.filter (fun c => decide (0 < categoryCount l c))

/-- `data_df.groupby('category')['rank_1_survived_ai'].mean() * 100`,
`app.py` lines 90-92: one `(Category, survival rate)` pair per category
present in the full set, rate as an exact rational percentage. -/
def category_summary (l : List Record) : List (Category × ℚ) :=
  (presentCategories l).map (fun c =>
    (c, ((categorySurvived l c : ℚ) / (categoryCount l c : ℚ)) * 100))

/-- Display order of the chart's category axis: `alt.Y('Category',
sort='-x')` in `app.py` line 96 sorts descending by survival rate. -/
def chartOrder (a b : Category × ℚ) : Prop := b.2 ≤ a.2

instance : DecidableRel chartOrder := fun a b =>
  inferInstanceAs (Decidable (b.2 ≤ a.2))

instance : IsTotal (Category × ℚ) chartOrder :=
  ⟨fun a b => le_total b.2 a.2⟩

instance : IsTrans (Category × ℚ) chartOrder :=
  ⟨fun _ _ _ h1 h2 => le_trans h2 h1⟩

/-- The rows of the category chart as displayed: the per-category summary
of the full set, ordered descending by survival rate (`sort='-x'`). -/
def chartRows (l : List Record) : List (Category × ℚ) :=
  List.insertionSort chartOrder (category_summary l)

/-- The aggregate statistics the dashboard displays, `app.py` lines 63-66
(top-line metrics over the filtered view) and 90-98 (category chart). -/
structure Statistics where
  totalKeywords : Nat
  survivedCount : Nat
  survivalRate : ℚ
  atRiskCount : Nat
  categoryBreakdown : List (Category × ℚ)

/-- The whole aggregation pipeline for one filter selection: top-line
metrics are computed over `filtered_df` (`app.py` lines 63-66), while the
breakdown chart is computed over the full `data_df` (`app.py` line 90). -/
def aggregate (l : List Record) (f : FilterChoice) : Statistics :=
  { totalKeywords := total_keywords (filtered_df l f)
    survivedCount := survived_count (filtered_df l f)
    survivalRate := survival_rate (filtered_df l f)
    atRiskCount := at_risk_count (filtered_df l f)
    categoryBreakdown := chartRows l }

/-- Surviving records in a category are a subset of the category's
records, so the per-category survival fraction is at most one. -/
theorem categorySurvived_le (l : List Record) (c : Category) :
    categorySurvived l c ≤ categoryCount l c := by
  induction l with
  | nil => simp [categorySurvived, categoryCount]
  | cons r t ih =>
    simp only [categorySurvived, categoryCount, List.filter_cons] at ih ⊢
    cases hd : decide (categorize r.keyword = c) <;>
      cases hs : r.rank_1_survived_ai <;>
        simp [hd, hs] <;> omega

/-- A concrete one-record data set: one surviving Software/SaaS keyword. -/
def sample1 : List Record :=
  [{ keyword := "best crm tools", google_top_1_brand := "HubSpot",
     llm_recs := none, rank_1_survived_ai := true }]

/-- A concrete data set whose keywords hit the Software/SaaS rule, the
Consumer Goods/Food rule and the fallback, but never the Apparel rule. -/
def sampleNoApparel : List Record :=
  [{ keyword := "best crm tools", google_top_1_brand := "HubSpot",
     llm_recs := none, rank_1_survived_ai := true },
   { keyword := "air fryer recipes", google_top_1_brand := "Ninja",
     llm_recs := none, rank_1_survived_ai := false },
   { keyword := "garden hose", google_top_1_brand := "Acme",
     llm_recs := none, rank_1_survived_ai := true }]

/-- C1: every keyword that contains a Software/SaaS token (`crm`,
`software`, `saas`) and also an Apparel/Footwear token (`shoe`, `boot`,
`hiking`, `apparel`) is categorized as `Software/SaaS`: the `np.select`
rules are evaluated in the fixed order Software/SaaS, Consumer Goods/Food,
Apparel/Footwear, and the first matching rule wins. -/
theorem categorize_priority_software (kw : String)
    (hs : containsAnyToken kw softwareTokens = true)
    (_ha : containsAnyToken kw apparelTokens = true) :
    categorize kw = Category.softwareSaaS := by
  simp [categorize, hs]

theorem categorize_priority_software_witness :
    containsAnyToken "best crm shoes" softwareTokens = true ∧
    containsAnyToken "best crm shoes" apparelTokens = true ∧
    categorize "best crm shoes" = Category.softwareSaaS :=
  ⟨by decide, by decide,
    categorize_priority_software "best crm shoes" (by decide) (by decide)⟩

/-- C2: categorization is total and partitions the record set.  Every
keyword is assigned exactly one of the four categories; a keyword matching
none of the configured tokens is assigned `Other`; and for every record
set the per-category counts sum to the total record count. -/
theorem categorize_total_partition :
    (∀ kw : String, (allCategories.count (categorize kw)) = 1) ∧
    (∀ kw : String,
      containsAnyToken kw softwareTokens = false →
      containsAnyToken kw foodTokens = false →
      containsAnyToken kw apparelTokens = false →
      categorize kw = Category.other) ∧
    (∀ l : List Record,
      (allCategories.map (categoryCount l)).sum = l.length) := by
  refine ⟨?_, ?_, ?_⟩
  · intro kw
    cases h : categorize kw <;> decide
  · intro kw hs hf ha
    simp [categorize, hs, hf, ha]
  · intro l
    induction l with
    | nil => simp [allCategories, categoryCount]
    | cons r t ih =>
      have hc : ∀ c, categoryCount (r :: t) c =
          (if categorize r.keyword = c then 1 else 0) + categoryCount t c := by
        intro c
        simp only [categoryCount, List.filter_cons]
        split
        · rename_i h
          simp only [decide_eq_true_eq] at h
          simp [h, List.length_cons, Nat.add_comm]
        · rename_i h
          simp only [decide_eq_true_eq] at h
          simp [h]
      simp only [allCategories, List.map_cons, List.map_nil, List.sum_cons,
        List.sum_nil, hc] at ih ⊢
      cases h : categorize r.keyword <;> simp [h] <;> omega

theorem categorize_total_partition_witness :
    categorize "zzz" = Category.other :=
  categorize_total_partition.2.1 "zzz" (by decide) (by decide) (by decide)

/-- C3: over the empty filtered view the aggregation reports survival rate
0 and at-risk count 0 (the guard `if total_keywords > 0` keeps the
division from being evaluated); and in general the at-risk count equals
total record count minus survival count. -/
theorem aggregate_empty_safe :
    survival_rate [] = 0 ∧ at_risk_count [] = 0 ∧
    (∀ l : List Record,
      at_risk_count l = total_keywords l - survived_count l) :=
  ⟨by simp [survival_rate, total_keywords], rfl, fun _ => rfl⟩

/-- C4: for every filter selection the per-category breakdown is computed
over the unfiltered full record set (hence identical across filter
selections), while the four top-line metrics are computed over the
filtered view only. -/
theorem aggregate_breakdown_global_metrics_filtered
    (l : List Record) (f f' : FilterChoice) :
    (aggregate l f).categoryBreakdown = (aggregate l f').categoryBreakdown ∧
    (aggregate l f).categoryBreakdown = chartRows l ∧
    (aggregate l f).totalKeywords = total_keywords (filtered_df l f) ∧
    (aggregate l f).survivedCount = survived_count (filtered_df l f) ∧
    (aggregate l f).survivalRate = survival_rate (filtered_df l f) ∧
    (aggregate l f).atRiskCount = at_risk_count (filtered_df l f) :=
  ⟨rfl, rfl, rfl, rfl, rfl, rfl⟩

/-- C8: the displayed category breakdown is sorted by descending survival
rate, and every entry's rate is the percentage (in `[0, 100]`) of the
category's records whose `rank_1_survived_ai` is true, computed over the
full record set. -/
theorem category_breakdown_sorted_percentage
    (l : List Record) (f : FilterChoice) :
    List.Sorted chartOrder ((aggregate l f).categoryBreakdown) ∧
    ∀ p : Category × ℚ, p ∈ (aggregate l f).categoryBreakdown →
      p.2 = ((categorySurvived l p.1 : ℚ) / (categoryCount l p.1 : ℚ)) * 100 ∧
      0 ≤ p.2 ∧ p.2 ≤ 100 := by
  constructor
  · exact List.sorted_insertionSort chartOrder (category_summary l)
  · intro p hp
    have hmem : p ∈ category_summary l :=
      (List.perm_insertionSort chartOrder (category_summary l)).mem_iff.mp hp
    simp only [category_summary, List.mem_map] at hmem
    obtain ⟨c, hc, rfl⟩ := hmem
    simp only [presentCategories, List.mem_filter, decide_eq_true_eq] at hc
    have hn : (0 : ℚ) < (categoryCount l c : ℚ) := by exact_mod_cast hc.2
    have hsle : (categorySurvived l c : ℚ) ≤ (categoryCount l c : ℚ) := by
      exact_mod_cast categorySurvived_le l c
    refine ⟨rfl, ?_, ?_⟩
    · have h0 : (0 : ℚ) ≤ (categorySurvived l c : ℚ) / (categoryCount l c : ℚ) :=
        div_nonneg (by positivity) hn.le
      simpa using mul_nonneg h0 (by norm_num : (0 : ℚ) ≤ 100)
    · have h1 : (categorySurvived l c : ℚ) / (categoryCount l c : ℚ) ≤ 1 :=
        (div_le_one hn).mpr hsle
      calc ((categorySurvived l c : ℚ) / (categoryCount l c : ℚ)) * 100
          ≤ 1 * 100 := by
            exact mul_le_mul_of_nonneg_right h1 (by norm_num)
        _ = 100 := by norm_num

theorem category_breakdown_sorted_percentage_witness :
    (Category.softwareSaaS, (100 : ℚ)).2 =
      ((categorySurvived sample1 (Category.softwareSaaS, (100 : ℚ)).1 : ℚ) /
        (categoryCount sample1 (Category.softwareSaaS, (100 : ℚ)).1 : ℚ)) * 100 ∧
    (0 : ℚ) ≤ (Category.softwareSaaS, (100 : ℚ)).2 ∧
    (Category.softwareSaaS, (100 : ℚ)).2 ≤ 100 :=
  (category_breakdown_sorted_percentage sample1 FilterChoice.all).2
    (Category.softwareSaaS, (100 : ℚ)) (by
      have hp : presentCategories sample1 = [Category.softwareSaaS] := by decide
      have h1 : categorySurvived sample1 Category.softwareSaaS = 1 := by decide
      have h2 : categoryCount sample1 Category.softwareSaaS = 1 := by decide
      show (Category.softwareSaaS, (100 : ℚ)) ∈ chartRows sample1
      rw [chartRows, category_summary, hp]
      simp [List.insertionSort, List.orderedInsert, h1, h2])

/-- The first components of the displayed chart rows are a permutation of
the categories present in the full set: `groupby` creates one group per
category value that actually occurs. -/
theorem chartRows_fst_perm (l : List Record) :
    ((chartRows l).map Prod.fst).Perm (presentCategories l) := by
  have hperm : ((chartRows l).map Prod.fst).Perm
      ((category_summary l).map Prod.fst) :=
    (List.perm_insertionSort chartOrder (category_summary l)).map Prod.fst
  have heq : (category_summary l).map Prod.fst = presentCategories l := by
    simp only [category_summary, List.map_map]
    exact List.map_id'' (fun _ => rfl) (presentCategories l)
  exact heq ▸ hperm

/-- C9 counterexample: on a concrete record set with no Apparel/Footwear
keyword, filtering by `Apparel/Footwear` gives 0 keywords, but the
category chart does not contain the `Apparel/Footwear` category at all —
`groupby` only produces groups for categories present in the data, so the
chart cannot show all four categories. -/
theorem apparel_zero_chart_counterexample :
    (aggregate sampleNoApparel
      (FilterChoice.cat Category.apparelFootwear)).totalKeywords = 0 ∧
    Category.apparelFootwear ∉
      ((aggregate sampleNoApparel
        (FilterChoice.cat Category.apparelFootwear)).categoryBreakdown.map
          Prod.fst) := by
  constructor
  · decide
  · intro hmem
    have h2 : Category.apparelFootwear ∈ presentCategories sampleNoApparel :=
      (chartRows_fst_perm sampleNoApparel).mem_iff.mp hmem
    have h3 : presentCategories sampleNoApparel =
        [Category.consumerGoodsFood, Category.other,
         Category.softwareSaaS] := by decide
    rw [h3] at h2
    simp at h2

/-- C9 amended: when zero records match `Apparel/Footwear`, the top-line
metrics show 0 keywords, survival rate 0 and 0 at risk, and the category
chart shows exactly the categories present in the full unfiltered record
set — which then excludes `Apparel/Footwear` itself. -/
theorem apparel_zero_chart_amended (l : List Record)
    (h : categoryCount l Category.apparelFootwear = 0) :
    (aggregate l (FilterChoice.cat Category.apparelFootwear)).totalKeywords
      = 0 ∧
    (aggregate l (FilterChoice.cat Category.apparelFootwear)).survivalRate
      = 0 ∧
    (aggregate l (FilterChoice.cat Category.apparelFootwear)).atRiskCount
      = 0 ∧
    ((aggregate l
      (FilterChoice.cat Category.apparelFootwear)).categoryBreakdown.map
        Prod.fst).Perm (presentCategories l) ∧
    Category.apparelFootwear ∉ presentCategories l := by
  have htot : total_keywords
      (filtered_df l (FilterChoice.cat Category.apparelFootwear)) = 0 := h
  have hfil : filtered_df l (FilterChoice.cat Category.apparelFootwear)
      = [] := List.length_eq_zero.mp htot
  refine ⟨htot, ?_, ?_, chartRows_fst_perm l, ?_⟩
  · show survival_rate (filtered_df l _) = 0
    rw [hfil]
    simp [survival_rate, total_keywords]
  · show at_risk_count (filtered_df l _) = 0
    rw [hfil]
    rfl
  · intro hmem
    simp only [presentCategories, List.mem_filter, decide_eq_true_eq] at hmem
    omega

theorem apparel_zero_chart_amended_witness :
    (aggregate sampleNoApparel
      (FilterChoice.cat Category.apparelFootwear)).totalKeywords = 0 ∧
    (aggregate sampleNoApparel
      (FilterChoice.cat Category.apparelFootwear)).survivalRate = 0 ∧
    (aggregate sampleNoApparel
      (FilterChoice.cat Category.apparelFootwear)).atRiskCount = 0 ∧
    ((aggregate sampleNoApparel
      (FilterChoice.cat Category.apparelFootwear)).categoryBreakdown.map
        Prod.fst).Perm (presentCategories sampleNoApparel) ∧
    Category.apparelFootwear ∉ presentCategories sampleNoApparel :=
  apparel_zero_chart_amended sampleNoApparel (by decide)

/-- A fold step accumulating first occurrences of category values, the
model of `data_df['category'].unique()` (`app.py` line 51). -/
def uniqStep (acc : List Category) (r : Record) : List Category :=
  if categorize r.keyword ∈ acc then acc else acc ++ [categorize r.keyword]

/-- `data_df['category'].unique()`: the distinct category values present
in the data, in order of first occurrence. -/
def uniqueCats (l : List Record) : List Category :=
  l.foldl uniqStep []

/-- The sidebar options of `app.py` lines 52-55: `['All'] + list(categories)`. -/
def filterOptions (l : List Record) : List FilterChoice :=
  FilterChoice.all :: (uniqueCats l).map FilterChoice.cat

theorem mem_foldl_uniqStep (l : List Record) :
    ∀ (acc : List Category) (c : Category),
      c ∈ l.foldl uniqStep acc ↔
        c ∈ acc ∨ ∃ r ∈ l, categorize r.keyword = c := by
  induction l with
  | nil => simp
  | cons r t ih =>
    intro acc c
    rw [List.foldl_cons, ih]
    have hstep : c ∈ uniqStep acc r ↔ c ∈ acc ∨ categorize r.keyword = c := by
      unfold uniqStep
      split
      · rename_i hm
        constructor
        · exact fun h => Or.inl h
        · rintro (h | h)
          · exact h
          · exact h ▸ hm
      · simp [List.mem_append, eq_comm]
    rw [hstep]
    simp only [List.mem_cons]
    constructor
    · rintro ((h | h) | ⟨x, hx, hcx⟩)
      · exact Or.inl h
      · exact Or.inr ⟨r, Or.inl rfl, h⟩
      · exact Or.inr ⟨x, Or.inr hx, hcx⟩
    · rintro (h | ⟨x, (rfl | hx), hcx⟩)
      · exact Or.inl (Or.inl h)
      · exact Or.inl (Or.inr hcx)
      · exact Or.inr ⟨x, hx, hcx⟩

theorem nodup_foldl_uniqStep (l : List Record) :
    ∀ acc : List Category, acc.Nodup → (l.foldl uniqStep acc).Nodup := by
  induction l with
  | nil => exact fun acc h => h
  | cons r t ih =>
    intro acc hacc
    rw [List.foldl_cons]
    apply ih
    unfold uniqStep
    split
    · exact hacc
    · rename_i hm
      simp only [List.nodup_append, List.nodup_cons, List.nodup_nil]
      exact ⟨hacc, by simp, by
        intro a ha hb
        simp only [List.mem_singleton] at hb
        exact hm (hb ▸ ha)⟩

/-- C10 (implicit): the sidebar options are exactly `All` followed by the
distinct category values present in the data, so every selectable option
other than `All` filters to a nonempty view, making the zero-record
fallback of the survival rate unreachable through the offered options. -/
theorem filter_options_present (l : List Record) :
    (uniqueCats l).Nodup ∧
    (∀ c : Category,
      c ∈ uniqueCats l ↔ ∃ r ∈ l, categorize r.keyword = c) ∧
    filterOptions l = FilterChoice.all :: (uniqueCats l).map FilterChoice.cat ∧
    (∀ f : FilterChoice, f ∈ filterOptions l → f ≠ FilterChoice.all →
      0 < (filtered_df l f).length) := by
  refine ⟨nodup_foldl_uniqStep l [] (by simp), ?_, rfl, ?_⟩
  · intro c
    rw [uniqueCats, mem_foldl_uniqStep]
    simp
  · intro f hf hne
    rcases f with _ | c
    · exact absurd rfl hne
    · simp only [filterOptions, List.mem_cons, List.mem_map] at hf
      rcases hf with h | ⟨c2, hc2, heq⟩
      · exact absurd h (by simp)
      · have hcc : c2 = c := by injection heq
        subst hcc
        have hmem : ∃ r ∈ l, categorize r.keyword = c2 := by
          have := (mem_foldl_uniqStep l [] c2).mp hc2
          simpa using this
        obtain ⟨r, hr, hcr⟩ := hmem
        have : r ∈ filtered_df l (FilterChoice.cat c2) :=
          List.mem_filter.mpr ⟨hr, by simp [hcr]⟩
        exact List.length_pos.mpr (List.ne_nil_of_mem this)

theorem filter_options_present_witness :
    0 < (filtered_df sampleNoApparel
      (FilterChoice.cat Category.softwareSaaS)).length :=
  (filter_options_present sampleNoApparel).2.2.2
    (FilterChoice.cat Category.softwareSaaS) (by decide) (by decide)

/-- The textual boolean encodings the CSV reader recognizes: pandas
`read_csv` parses a cell as a boolean iff it is one of `True`, `TRUE`,
`true`, `False`, `FALSE`, `false`. -/
def parseBoolToken (s : String) : Option Bool :=
  if s = "True" ∨ s = "TRUE" ∨ s = "true" then some true
  else if s = "False" ∨ s = "FALSE" ∨ s = "false" then some false
  else none

/-- A typed cell of a loaded column after `pd.read_csv` type inference. -/
inductive ColValue where
  | boolVal (b : Bool)
  | intVal (n : Int)
  | strVal (s : String)
  deriving DecidableEq

/-- Modelled: pandas `read_csv` column type inference, restricted to the
cases relevant to the survival column.  A column whose cells are all
recognized boolean tokens becomes a boolean column; failing that, a column
of integer literals becomes an integer column; otherwise the cells stay
strings. -/
def inferColumn (cells : List String) : List ColValue :=
  if cells.all (fun c => (parseBoolToken c).isSome) then
    cells.map (fun c => ColValue.boolVal ((parseBoolToken c).getD false))
  else if cells.all (fun c => c.toInt?.isSome) then
    cells.map (fun c => ColValue.intVal (c.toInt?.getD 0))
  else cells.map ColValue.strVal

/-- `astype(bool)` on one cell: booleans unchanged, integers by
zero-test, strings by Python truthiness (any non-empty string is true). -/
def astype_bool : ColValue → Bool
  | ColValue.boolVal b => b
  | ColValue.intVal n => n != 0
  | ColValue.strVal s => !s.isEmpty

/-- `df['rank_1_survived_ai'].astype(bool)` applied to the raw CSV cells
of the survival column, `app.py` lines 20-23. -/
def loadSurvival (cells : List String) : List Bool :=
  (inferColumn cells).map astype_bool

theorem all_parse_of_map_eq (cells : List String) :
    ∀ bs : List Bool, cells.map parseBoolToken = bs.map some →
      cells.all (fun c => (parseBoolToken c).isSome) = true := by
  induction cells with
  | nil => intro bs _; rfl
  | cons c cs ih =>
    intro bs h
    cases bs with
    | nil => simp at h
    | cons b bs2 =>
      simp only [List.map_cons, List.cons.injEq] at h
      simp only [List.all_cons, Bool.and_eq_true]
      exact ⟨by simp [h.1], ih bs2 h.2⟩

theorem map_getD_of_map_eq (cells : List String) :
    ∀ bs : List Bool, cells.map parseBoolToken = bs.map some →
      cells.map (fun c => (parseBoolToken c).getD false) = bs := by
  induction cells with
  | nil =>
    intro bs h
    cases bs with
    | nil => rfl
    | cons b bs2 => simp at h
  | cons c cs ih =>
    intro bs h
    cases bs with
    | nil => simp at h
    | cons b bs2 =>
      simp only [List.map_cons, List.cons.injEq] at h
      simp only [List.map_cons, h.1, Option.getD_some, List.cons.injEq]
      exact ⟨trivial, ih bs2 h.2⟩

/-- C5: the loader coerces the survival column to strict booleans.  For
every input column whose cells are the recognized truthy/falsy textual
encodings of a boolean sequence, the loaded column is exactly that
boolean sequence. -/
theorem load_survival_bool_coercion (cells : List String) (bs : List Bool)
    (h : cells.map parseBoolToken = bs.map some) :
    loadSurvival cells = bs := by
  rw [loadSurvival, inferColumn, if_pos (all_parse_of_map_eq cells bs h),
    List.map_map]
  exact map_getD_of_map_eq cells bs h

theorem load_survival_bool_coercion_witness :
    loadSurvival ["True", "false", "TRUE"] = [true, false, true] :=
  load_survival_bool_coercion ["True", "false", "TRUE"]
    [true, false, true] (by decide)

/-- The possible states of the CSV data source from the app's point of
view.  `missing` makes `pd.read_csv` raise `FileNotFoundError`;
`unparseable` stands for a present file on which `pd.read_csv` raises a
parse error (not a `FileNotFoundError`); `table` is a parsed file whose
rows are the given records. -/
inductive CsvSource where
  | missing
  | unparseable
  | table (rows : List Record)

/-- Outcome of the `load_data` call of `app.py` lines 16-39: a loaded
table, or the `except FileNotFoundError` branch (error message plus empty
DataFrame), or an exception that no handler catches. -/
inductive LoadResult where
  | ok (rows : List Record)
  | emptyWithError
  | uncaughtException

/-- `load_data` of `app.py` lines 16-39: only `FileNotFoundError` is
caught (line 37); any other exception from `pd.read_csv` propagates. -/
def load_data : CsvSource → LoadResult
  | CsvSource.missing => LoadResult.emptyWithError
  | CsvSource.unparseable => LoadResult.uncaughtException
  | CsvSource.table rows => LoadResult.ok rows

/-- What the page ends up showing. -/
inductive View where
  | dashboard
  | emptyWarning
  | exceptionScreen

/-- The top-level control flow of `app.py` lines 41-127: an empty
DataFrame (from the except branch or from an empty file) takes the
`st.warning` branch of line 127; a load exception aborts the script run
before any branch is taken. -/
def appView (src : CsvSource) : View :=
  match load_data src with
  | LoadResult.ok rows =>
      if rows.isEmpty then View.emptyWarning else View.dashboard
  | LoadResult.emptyWithError => View.emptyWarning
  | LoadResult.uncaughtException => View.exceptionScreen

/-- C6 counterexample: a present but unparseable data source does not
produce the handled empty-state outcome; the parse error is not caught
(`app.py` line 37 catches only `FileNotFoundError`), so the script run
ends in an uncaught exception instead of the empty-state message. -/
theorem load_parse_error_uncaught :
    load_data CsvSource.unparseable = LoadResult.uncaughtException ∧
    appView CsvSource.unparseable = View.exceptionScreen ∧
    LoadResult.uncaughtException ≠ LoadResult.emptyWithError :=
  ⟨rfl, rfl, fun h => LoadResult.noConfusion h⟩

/-- C6 amended: when the data source is missing, `load_data` takes the
`except FileNotFoundError` branch (user-visible error message plus empty
table) and the app presents the empty-state warning rather than crashing;
a well-formed source loads normally.  A present but unparseable source,
by contrast, raises an uncaught exception. -/
theorem load_missing_handled :
    load_data CsvSource.missing = LoadResult.emptyWithError ∧
    appView CsvSource.missing = View.emptyWarning ∧
    (∀ rows : List Record,
      load_data (CsvSource.table rows) = LoadResult.ok rows) :=
  ⟨rfl, rfl, fun _ => rfl⟩

/-- The single-quote character delimiting the items of the stringified
list literals stored in the `llm_recs` column. -/
def quoteChar : Char := Char.ofNat 39

/-- Parser state while scanning the inside of a list literal. -/
inductive PState where
  | expectItem
  | inItem
  | afterItem
  | afterComma

/-- Modelled: Python `eval` restricted to its behaviour on stringified
lists of single-quoted strings (the shape of the `llm_recs` cells), as a
character scanner over the text after the opening `[`.  `cur` accumulates
the current item, `acc` the finished items; any text outside this grammar
yields `none`, standing for the exception `eval` raises. -/
def runP : List Char → PState → List Char → List String →
    Option (List String)
  | [], _, _, _ => none
  | ch :: cs, st, cur, acc =>
    match st with
    | PState.expectItem =>
        if ch = quoteChar then runP cs PState.inItem [] acc else none
    | PState.inItem =>
        if ch = quoteChar then
          runP cs PState.afterItem [] (acc ++ [String.mk cur])
        else runP cs PState.inItem (cur ++ [ch]) acc
    | PState.afterItem =>
        if ch = ']' then (if cs = [] then some acc else none)
        else if ch = ',' then runP cs PState.afterComma [] acc
        else none
    | PState.afterComma =>
        if ch = ' ' then runP cs PState.expectItem [] acc else none

/-- `eval` applied to a string expected to be a list literal of strings:
`[]` gives the empty list, otherwise the scanner runs on the text after
the opening bracket. -/
def pyEvalStrList (s : String) : Option (List String) :=
  match s.data with
  | [] => none
  | ch :: cs =>
      if ch = '[' then
        if cs = [']'] then some [] else runP cs PState.expectItem [] []
      else none

/-- `x.startswith('[')` of `app.py` line 121. -/
def starts_with_bracket (s : String) : Bool :=
  match s.data with
  | [] => false
  | ch :: _ => ch = '['

/-- Result of the formatter lambda: a returned cell value, or an
exception raised by `eval` on malformed list-like text. -/
inductive FormatOutcome where
  | ok (v : Option String)
  | raised

/-- The formatter of `app.py` line 121:
`', '.join(eval(x)) if pd.notnull(x) and x.startswith('[') else x`.
A null cell or text not beginning with `[` passes through unchanged; text
beginning with `[` is evaluated as a list literal and joined with `", "`. -/
def format_recs (x : Option String) : FormatOutcome :=
  match x with
  | none => FormatOutcome.ok none
  | some s =>
      if starts_with_bracket s then
        match pyEvalStrList s with
        | some items =>
            FormatOutcome.ok (some (String.intercalate ", " items))
        | none => FormatOutcome.raised
      else FormatOutcome.ok (some s)

/-- The canonical well-formed list literal holding the given items: each
item single-quoted, items separated by `", "`, the whole in brackets
(the `repr` of a Python list of strings without embedded quotes).  This
is the text after the opening bracket. -/
def encodeItems : List String → List Char
  | [] => [']']
  | [s] => quoteChar :: (s.data ++ [quoteChar, ']'])
  | s :: ss => quoteChar :: (s.data ++ [quoteChar, ',', ' '] ++ encodeItems ss)

/-- The full canonical list-literal text for the given items. -/
def encodeListLiteral (items : List String) : String :=
  String.mk ('[' :: encodeItems items)

/-- Number of occurrences of the separator `", "` in a character list
(non-overlapping, left to right). -/
def countSep : List Char → Nat
  | [] => 0
  | [_] => 0
  | ch :: c2 :: rest =>
      if ch = ',' ∧ c2 = ' ' then countSep rest + 1
      else countSep (c2 :: rest)

theorem runP_scan_item (content : List Char)
    (hq : ∀ ch ∈ content, ch ≠ quoteChar) :
    ∀ (rest cur : List Char) (acc : List String),
      runP (content ++ quoteChar :: rest) PState.inItem cur acc
        = runP rest PState.afterItem [] (acc ++ [String.mk (cur ++ content)]) := by
  induction content with
  | nil =>
    intro rest cur acc
    simp [runP]
  | cons ch cs ih =>
    intro rest cur acc
    have hch : ch ≠ quoteChar := hq ch (List.mem_cons_self ch cs)
    have hcs : ∀ c ∈ cs, c ≠ quoteChar :=
      fun c hc => hq c (List.mem_cons_of_mem ch hc)
    simp only [List.cons_append, runP, if_neg hch, List.append_eq]
    rw [ih hcs rest (cur ++ [ch]) acc, List.append_assoc]
    simp

theorem runP_scan_items (items : List String) :
    ∀ s : String, (∀ ch ∈ s.data, ch ≠ quoteChar) →
      (∀ x ∈ items, ∀ ch ∈ x.data, ch ≠ quoteChar) →
      ∀ acc : List String,
        runP (encodeItems (s :: items)) PState.expectItem [] acc
          = some (acc ++ s :: items) := by
  induction items with
  | nil =>
    intro s hs _ acc
    simp only [encodeItems, runP, if_pos rfl]
    have h2 : s.data ++ [quoteChar, ']'] = s.data ++ quoteChar :: [']'] := rfl
    rw [h2, runP_scan_item s.data hs [']'] [] acc]
    simp [runP]
  | cons x xs ih =>
    intro s hs hq acc
    have hx : ∀ ch ∈ x.data, ch ≠ quoteChar :=
      hq x (List.mem_cons_self x xs)
    have hxs : ∀ y ∈ xs, ∀ ch ∈ y.data, ch ≠ quoteChar :=
      fun y hy => hq y (List.mem_cons_of_mem x hy)
    show runP (quoteChar :: (s.data ++ [quoteChar, ',', ' ']
      ++ encodeItems (x :: xs))) PState.expectItem [] acc = _
    simp only [runP, if_pos rfl]
    have h2 : s.data ++ [quoteChar, ',', ' '] ++ encodeItems (x :: xs)
        = s.data ++ quoteChar :: (',' :: ' ' :: encodeItems (x :: xs)) := by
      simp
    rw [h2, runP_scan_item s.data hs _ [] acc]
    have hcq : (',' : Char) ≠ ']' := by decide
    simp only [runP, if_neg hcq, if_pos rfl, if_true, eq_self_iff_true,
      List.nil_append]
    rw [ih x hx hxs (acc ++ [String.mk s.data])]
    simp

theorem pyEval_round_trip (items : List String)
    (hq : ∀ x ∈ items, ∀ ch ∈ x.data, ch ≠ quoteChar) :
    pyEvalStrList (encodeListLiteral items) = some items := by
  cases items with
  | nil => rfl
  | cons s ss =>
    have hs : ∀ ch ∈ s.data, ch ≠ quoteChar :=
      hq s (List.mem_cons_self s ss)
    have hss : ∀ y ∈ ss, ∀ ch ∈ y.data, ch ≠ quoteChar :=
      fun y hy => hq y (List.mem_cons_of_mem s hy)
    have hne : encodeItems (s :: ss) ≠ [']'] := by
      cases ss <;> · intro h
                     injection h with h1 _
                     exact absurd h1 (by decide)
    show pyEvalStrList (String.mk ('[' :: encodeItems (s :: ss))) = _
    simp only [pyEvalStrList, if_pos rfl, if_neg hne]
    rw [runP_scan_items ss s hs hss []]
    simp

/-- Character-level view of the tail of a `", "` join: separator then
item, repeated. -/
def joinRest : List String → List Char
  | [] => []
  | s :: ss => ',' :: ' ' :: (s.data ++ joinRest ss)

/-- Character-level view of `', '.join(items)`. -/
def joinChars : List String → List Char
  | [] => []
  | s :: ss => s.data ++ joinRest ss

theorem intercalate_go_data (as : List String) :
    ∀ acc : String, (String.intercalate.go acc ", " as).data
      = acc.data ++ joinRest as := by
  induction as with
  | nil => intro acc; simp [String.intercalate.go, joinRest]
  | cons a as2 ih =>
    intro acc
    show (String.intercalate.go (acc ++ ", " ++ a) ", " as2).data = _
    rw [ih (acc ++ ", " ++ a)]
    simp [String.data_append, joinRest]

theorem intercalate_data (items : List String) :
    (String.intercalate ", " items).data = joinChars items := by
  cases items with
  | nil => rfl
  | cons s ss =>
    show (String.intercalate.go s ", " ss).data = _
    rw [intercalate_go_data ss s]
    rfl

theorem countSep_comma_free (a : List Char) (h : ∀ ch ∈ a, ch ≠ ',') :
    countSep a = 0 := by
  induction a with
  | nil => rfl
  | cons ch rest ih =>
    have hch : ch ≠ ',' := h ch (List.mem_cons_self ch rest)
    have hrest : ∀ c ∈ rest, c ≠ ',' :=
      fun c hc => h c (List.mem_cons_of_mem ch hc)
    cases rest with
    | nil => rfl
    | cons c2 rest2 =>
      show countSep (ch :: c2 :: rest2) = 0
      rw [countSep]
      rw [if_neg (fun hand => hch hand.1)]
      exact ih hrest

theorem countSep_append_sep (a : List Char) (h : ∀ ch ∈ a, ch ≠ ',') :
    ∀ b : List Char, countSep (a ++ ',' :: ' ' :: b) = countSep b + 1 := by
  induction a with
  | nil =>
    intro b
    show countSep (',' :: ' ' :: b) = countSep b + 1
    rw [countSep, if_pos ⟨rfl, rfl⟩]
  | cons ch rest ih =>
    intro b
    have hch : ch ≠ ',' := h ch (List.mem_cons_self ch rest)
    have hrest : ∀ c ∈ rest, c ≠ ',' :=
      fun c hc => h c (List.mem_cons_of_mem ch hc)
    show countSep (ch :: (rest ++ ',' :: ' ' :: b)) = countSep b + 1
    cases hr : rest ++ ',' :: ' ' :: b with
    | nil => simp at hr
    | cons c2 rest2 =>
      rw [countSep, if_neg (fun hand => hch hand.1), ← hr]
      exact ih hrest b

theorem countSep_joinChars (items : List String)
    (h : ∀ x ∈ items, ∀ ch ∈ x.data, ch ≠ ',') :
    countSep (joinChars items) = items.length - 1 := by
  induction items with
  | nil => rfl
  | cons s ss ih =>
    have hsd : ∀ ch ∈ s.data, ch ≠ ',' := h s (List.mem_cons_self s ss)
    have hss : ∀ x ∈ ss, ∀ ch ∈ x.data, ch ≠ ',' :=
      fun x hx => h x (List.mem_cons_of_mem s hx)
    cases ss with
    | nil =>
      show countSep (s.data ++ joinRest []) = 0
      simp only [joinRest, List.append_nil]
      exact countSep_comma_free s.data hsd
    | cons x xs =>
      show countSep (s.data ++ ',' :: ' ' :: (x.data ++ joinRest xs))
        = (s :: x :: xs).length - 1
      rw [countSep_append_sep s.data hsd]
      have : countSep (x.data ++ joinRest xs) = (x :: xs).length - 1 :=
        ih hss
      rw [this]
      simp

/-- C7: round trip of the recommendation-list formatter.  Applied to a
non-null well-formed list literal of N string items it returns the items
joined by `", "` (a string with exactly N-1 separators, when no item
itself contains a comma); applied to a null value or to text not
beginning with `[` it returns its input unchanged. -/
theorem format_recs_round_trip :
    (∀ items : List String,
      (∀ x ∈ items, ∀ ch ∈ x.data, ch ≠ quoteChar) →
      format_recs (some (encodeListLiteral items))
        = FormatOutcome.ok (some (String.intercalate ", " items)) ∧
      ((∀ x ∈ items, ∀ ch ∈ x.data, ch ≠ ',') →
        countSep (String.intercalate ", " items).data
          = items.length - 1)) ∧
    (∀ s : String, starts_with_bracket s = false →
      format_recs (some s) = FormatOutcome.ok (some s)) ∧
    format_recs none = FormatOutcome.ok none := by
  refine ⟨?_, ?_, rfl⟩
  · intro items hq
    constructor
    · have hb : starts_with_bracket (encodeListLiteral items) = true := by
        simp [starts_with_bracket, encodeListLiteral]
      rw [format_recs, if_pos hb, pyEval_round_trip items hq]
    · intro hc
      rw [intercalate_data]
      exact countSep_joinChars items hc
  · intro s hsb
    rw [format_recs, if_neg (by simp [hsb])]

theorem format_recs_round_trip_witness :
    format_recs (some (encodeListLiteral ["alpha", "beta"]))
      = FormatOutcome.ok (some (String.intercalate ", " ["alpha", "beta"])) ∧
    countSep (String.intercalate ", " ["alpha", "beta"]).data
      = (["alpha", "beta"] : List String).length - 1 :=
  ⟨(format_recs_round_trip.1 ["alpha", "beta"] (by decide)).1,
   (format_recs_round_trip.1 ["alpha", "beta"] (by decide)).2 (by decide)⟩

end App
